import Mathlib

/-!
Shallow embedding of `src/Producer/src/ElectronsFiller.cc` (PandaProd).

Numeric quantities are modelled as rationals (`ℚ`). Framework-supplied
collections are lists; side-maps keyed by an object reference are modelled as
functions from the object's index in its collection (the `refAt` identity).
Effective-area tables (loaded from external correction files by external
library code) are modelled as opaque functions `ℚ → ℚ` held in the
configuration. `edm::Exception` throws are modelled with `Except String`.
-/

namespace PandaProd

/-- `reco::GsfElectron::PflowIsolationVariables`: the raw particle-flow
isolation sums carried by an input electron. -/
structure PFIso where
  sumChargedHadronPt : ℚ
  sumNeutralHadronEt : ℚ
  sumPhotonEt : ℚ
  sumPUPt : ℚ
  deriving Repr, DecidableEq, Inhabited

/-- An input electron candidate (`reco::GsfElectron`, possibly a
`pat::Electron`).  `scId` is the identity of its supercluster
(`superCluster()` reference equality); `scEta` is that supercluster's eta.
`isPat` models whether `dynamic_cast<pat::Electron const*>` succeeds;
the two embedded cluster-isolation values are only meaningful then. -/
structure InElectron where
  pt : ℚ
  eta : ℚ
  phi : ℚ
  charge : ℤ
  full5x5_sigmaIetaIeta : ℚ
  full5x5_sigmaIphiIphi : ℚ
  hadronicOverEm : ℚ
  scId : ℕ
  scEta : ℚ
  pfIso : PFIso
  isPat : Bool
  ecalPFClusterIso : ℚ
  hcalPFClusterIso : ℚ
  deriving Repr, DecidableEq, Inhabited

/-- A secondary-collection photon candidate; only its supercluster identity is
read by this filler (its isolation sums live in side-maps keyed by its index). -/
structure Photon where
  scId : ℕ
  deriving Repr, DecidableEq, Inhabited

/-- A `pat::TriggerObjectStandAlone`: the filter labels it carries. -/
structure TriggerObject where
  filterLabels : List String
  deriving Repr, DecidableEq, Inhabited

/-- The output record (`panda::PElectron`).  Fields default to the
freshly-created record's values (`create_back`); `superCluster` is the
output-side cluster reference, written only by `setRefs`. -/
structure OutElectron where
  pt : ℚ := 0
  eta : ℚ := 0
  phi : ℚ := 0
  veto : Bool := false
  loose : Bool := false
  medium : Bool := false
  tight : Bool := false
  q : ℤ := 0
  sieie : ℚ := 0
  sipip : ℚ := 0
  hOverE : ℚ := 0
  chiso : ℚ := 0
  nhiso : ℚ := 0
  phoiso : ℚ := 0
  puiso : ℚ := 0
  isoPUOffset : ℚ := 0
  ecaliso : ℚ := 0
  hcaliso : ℚ := 0
  chisoPh : ℚ := 0
  nhisoPh : ℚ := 0
  phisoPh : ℚ := 0
  matchHLT : List Bool := []
  tauDecay : Bool := false
  hadDecay : Bool := false
  superCluster : Option ℕ := none
  deriving Repr, DecidableEq, Inhabited

/-- Per-run configuration of `ElectronsFiller` (constructor, lines 14-45).
The six effective-area tables are loaded from external files by external
library code and are immutable thereafter; they are modelled as opaque lookup
functions.  `nElectronHLTObjects` models the external `panda` compile-time
constant giving the number of trigger filter categories. -/
structure Config where
  combIsoEA : ℚ → ℚ
  ecalIsoEA : ℚ → ℚ
  hcalIsoEA : ℚ → ℚ
  phCHIsoEA : ℚ → ℚ
  phNHIsoEA : ℚ → ℚ
  phPhIsoEA : ℚ → ℚ
  minPt : ℚ
  maxEta : ℚ
  useTrigger : Bool
  hltFilters : List String
  nElectronHLTObjects : ℕ

/-- Constructor default for `minPt` (line 22: `getParameter_<double>(_cfg, "minPt", -1.)`). -/
def defaultMinPt : ℚ := -1

/-- Constructor default for `maxEta` (line 23: `getParameter_<double>(_cfg, "maxEta", 10.)`). -/
def defaultMaxEta : ℚ := 10

/-- The per-event inputs consumed by `ElectronsFiller::fill` (lines 76-103).
Boolean identification side-maps and the photon isolation side-maps are keyed
by the object's index in its collection; the calorimeter-cluster isolation
side-maps are optional (their tokens may be left uninitialized, lines 85-90).
`deltaR` models the external `reco::deltaR` angular-separation function. -/
structure FillInput where
  electrons : List InElectron
  photons : List Photon
  vetoId : ℕ → Bool
  looseId : ℕ → Bool
  mediumId : ℕ → Bool
  tightId : ℕ → Bool
  phCHIso : ℕ → ℚ
  phNHIso : ℕ → ℚ
  phPhIso : ℕ → ℚ
  ecalIso : Option (ℕ → ℚ)
  hcalIso : Option (ℕ → ℚ)
  rho : ℚ
  rhoCentralCalo : ℚ
  isRealData : Bool
  triggerObjects : List TriggerObject
  deltaR : InElectron → TriggerObject → ℚ

/-- The transverse-momentum cut (line 112: skip when `inElectron.pt() < minPt_`). -/
def passPtCut (cfg : Config) (el : InElectron) : Bool :=
  !(el.pt < cfg.minPt)

/-- The pseudorapidity cut (line 114: skip when `std::abs(inElectron.eta()) > maxEta_`). -/
def passEtaCut (cfg : Config) (el : InElectron) : Bool :=
  !(|el.eta| > cfg.maxEta)

/-- The full selection applied to the candidate at index `i`
(lines 112-122: pt cut, eta cut, then the veto identification flag). -/
def selectedAt (cfg : Config) (inp : FillInput) (i : ℕ) (el : InElectron) : Bool :=
  passPtCut cfg el && passEtaCut cfg el && inp.vetoId i

/-- Pre-filtering of trigger objects by filter label (lines 94-103):
`hltObjects[iF]` collects, in collection order, the trigger objects carrying
the label `hltFilters_[iF]`. -/
def hltObjectsFor (cfg : Config) (inp : FillInput) (iF : ℕ) : List TriggerObject :=
  inp.triggerObjects.filter (fun obj => obj.filterLabels.contains (cfg.hltFilters.getD iF ""))

/-- The inner trigger-match scan for one filter category (lines 177-182):
walk the pre-filtered objects in order and stop at the first one within
angular separation `0.3` of the candidate. -/
def triggerScan (inp : FillInput) (el : InElectron) : List TriggerObject → Bool
  | [] => false
  | obj :: rest =>
    if inp.deltaR el obj < 3 / 10 then true else triggerScan inp el rest

/-- The photon cross-collection match loop (lines 165-173).  In the source the
index variable `iPh` is initialised to `0` and never incremented, so every
match reads the photon isolation side-maps at `photons.refAt(0)`: the literal
index `0` below reproduces that. -/
def photonMatchLoop (cfg : Config) (inp : FillInput) (scEta : ℚ) (scId : ℕ)
    (out : OutElectron) : OutElectron :=
  inp.photons.foldl
    (fun acc photon =>
      if photon.scId = scId then
        { acc with
          chisoPh := inp.phCHIso 0 - cfg.phCHIsoEA scEta * inp.rho
          nhisoPh := inp.phNHIso 0 - cfg.phNHIsoEA scEta * inp.rho
          phisoPh := inp.phPhIso 0 - cfg.phPhIsoEA scEta * inp.rho }
      else acc)
    out

/-- The unconditional copies of the fill loop body (lines 127-149): kinematics,
identification flags, charge, shower shapes, the four raw particle-flow
isolation sums stored uncorrected, and the separately stored pileup offset
`combIsoEA(|scEta|) * rho` (line 149). -/
def baseRecord (cfg : Config) (inp : FillInput) (i : ℕ) (el : InElectron) : OutElectron :=
  { pt := el.pt
    eta := el.eta
    phi := el.phi
    veto := inp.vetoId i
    loose := inp.looseId i
    medium := inp.mediumId i
    tight := inp.tightId i
    q := el.charge
    sieie := el.full5x5_sigmaIetaIeta
    sipip := el.full5x5_sigmaIphiIphi
    hOverE := el.hadronicOverEm
    chiso := el.pfIso.sumChargedHadronPt
    nhiso := el.pfIso.sumNeutralHadronEt
    phoiso := el.pfIso.sumPhotonEt
    puiso := el.pfIso.sumPUPt
    isoPUOffset := cfg.combIsoEA |el.scEta| * inp.rho
    matchHLT := List.replicate cfg.nElectronHLTObjects false }

/-- The calorimeter-cluster isolation pair (lines 151-163): from the embedded
`pat::Electron` values when the dynamic cast succeeds, otherwise from the
optional side-maps, throwing `edm::Exception` (first for ECAL, then for HCAL)
when a needed side-map is absent; both corrected with `rhoCentralCalo`. -/
def caloIso (cfg : Config) (inp : FillInput) (i : ℕ) (el : InElectron) :
    Except String (ℚ × ℚ) :=
  if el.isPat then
    Except.ok
      (el.ecalPFClusterIso - cfg.ecalIsoEA |el.scEta| * inp.rhoCentralCalo,
       el.hcalPFClusterIso - cfg.hcalIsoEA |el.scEta| * inp.rhoCentralCalo)
  else
    match inp.ecalIso with
    | none => Except.error "ECAL PF cluster iso missing"
    | some mE =>
      match inp.hcalIso with
      | none => Except.error "HCAL PF cluster iso missing"
      | some mH =>
        Except.ok
          (mE i - cfg.ecalIsoEA |el.scEta| * inp.rhoCentralCalo,
           mH i - cfg.hcalIsoEA |el.scEta| * inp.rhoCentralCalo)

/-- The trigger-match block (lines 175-184): when trigger usage is enabled,
set each category's flag from the scan over that category's pre-filtered
objects; otherwise leave the record untouched. -/
def withTrigger (cfg : Config) (inp : FillInput) (el : InElectron)
    (out : OutElectron) : OutElectron :=
  if cfg.useTrigger then
    { out with
      matchHLT := (List.range cfg.nElectronHLTObjects).map
        (fun iF => triggerScan inp el (hltObjectsFor cfg inp iF)) }
  else out

/-- The simulated-data block (lines 186-189): on non-real data initialize the
two decay-origin fields to false. -/
def withGen (inp : FillInput) (out : OutElectron) : OutElectron :=
  if inp.isRealData then out
  else { out with tauDecay := false, hadDecay := false }

/-- The body of the fill loop for one selected candidate at index `i`
(lines 124-189): the unconditional copies, the calorimeter-cluster isolation
(throwing when a needed side-map is absent), the photon cross-collection
match, the trigger match, and the simulated-data fields. -/
def fillOne (cfg : Config) (inp : FillInput) (i : ℕ) (el : InElectron) :
    Except String OutElectron :=
  match caloIso cfg inp i el with
  | Except.error msg => Except.error msg
  | Except.ok (eIso, hIso) =>
    Except.ok (withGen inp (withTrigger cfg inp el
      (photonMatchLoop cfg inp |el.scEta| el.scId
        { baseRecord cfg inp i el with ecaliso := eIso, hcaliso := hIso })))

/-- Sequences `Except`-producing computations over a list, stopping at the
first failure (the fill loop aborts the event on the first thrown exception). -/
def mapExcept (f : α → Except String β) : List α → Except String (List β)
  | [] => Except.ok []
  | x :: xs =>
    match f x with
    | Except.error msg => Except.error msg
    | Except.ok y =>
      match mapExcept f xs with
      | Except.error msg => Except.error msg
      | Except.ok ys => Except.ok (y :: ys)

/-- The indices of the candidates surviving the selection, in input order
(the loop of lines 110-122 skips the others). -/
def survivors (cfg : Config) (inp : FillInput) : List ℕ :=
  (List.range inp.electrons.length).filter
    (fun i => selectedAt cfg inp i (inp.electrons.getD i default))

/-- The fill loop (lines 109-192): one output record per surviving candidate,
in input order, together with `ptrList` (the surviving candidates' input
indices, line 191).  An exception from any record's fill aborts the event. -/
def fillPre (cfg : Config) (inp : FillInput) :
    Except String (List OutElectron × List ℕ) :=
  match mapExcept (fun i => fillOne cfg inp i (inp.electrons.getD i default))
      (survivors cfg inp) with
  | Except.error msg => Except.error msg
  | Except.ok outs => Except.ok (outs, survivors cfg inp)

/-- Comparison used to model `outElectrons.sort(panda::ptGreater)` on pre-sort
positions: position `i` precedes position `j` when its record's pt is strictly
greater, or the pts are equal and `i ≤ j` (stability). -/
def sortLE (pre : List OutElectron) (i j : ℕ) : Bool :=
  decide ((pre.getD j default).pt < (pre.getD i default).pt) ||
    (decide ((pre.getD i default).pt = (pre.getD j default).pt) && decide (i ≤ j))

/-- The `sortLE` comparison as a decidable relation. -/
def sortR (pre : List OutElectron) (i j : ℕ) : Prop :=
  sortLE pre i j = true

instance sortR.decidableRel (pre : List OutElectron) : DecidableRel (sortR pre) :=
  fun _ _ => inferInstanceAs (Decidable (_ = true))

/-- Modelled from the spec: `panda::ContainerBase::sort(panda::ptGreater)`
(line 195) lives in the external panda library, not in this repository's
sources.  Per the spec it stably sorts the produced records by strictly
descending transverse momentum and returns the permutation mapping each final
position to its pre-sort position; a stable sort of the positions
`0, …, n−1` is exactly a sort by the total order `sortR` (pt descending,
pre-sort position ascending on ties). -/
def sortPerm (pre : List OutElectron) : List ℕ :=
  List.insertionSort (sortR pre) (List.range pre.length)

/-- Reorders the pre-sort records by the permutation returned by the sort. -/
def applyPerm (pre : List OutElectron) (perm : List ℕ) : List OutElectron :=
  perm.map (fun idx => pre.getD idx default)

/-- The result of one event's fill phase: the ranked records, the sort
permutation, `ptrList`, and the two identity maps (lines 197-206), each map
modelled as its forward association list `input identity ↦ final position`. -/
structure FillResult where
  outElectrons : List OutElectron
  originalIndices : List ℕ
  ptrList : List ℕ
  eleEleMap : List (ℕ × ℕ)
  scEleMap : List (ℕ × ℕ)
  deriving Repr, DecidableEq

/-- `ElectronsFiller::fill` (lines 74-207): fill loop, ranking, then the
identity-map construction of lines 201-206, which for each final position `iP`
adds the originating candidate (`ptrList[originalIndices[iP]]`) and its
supercluster identity to the two maps. -/
def fill (cfg : Config) (inp : FillInput) : Except String FillResult :=
  match fillPre cfg inp with
  | Except.error msg => Except.error msg
  | Except.ok (pre, ptrs) =>
    Except.ok
      { outElectrons := applyPerm pre (sortPerm pre)
        originalIndices := sortPerm pre
        ptrList := ptrs
        eleEleMap := (List.range (applyPerm pre (sortPerm pre)).length).map
          (fun iP => (ptrs.getD ((sortPerm pre).getD iP 0) 0, iP))
        scEleMap := (List.range (applyPerm pre (sortPerm pre)).length).map
          (fun iP =>
            ((inp.electrons.getD (ptrs.getD ((sortPerm pre).getD iP 0) 0)
                default).scId, iP)) }

/-- The backward direction of an identity map: `record position ↦ input identity`. -/
def bwdMap (m : List (ℕ × ℕ)) : List (ℕ × ℕ) :=
  m.map (fun p => (p.2, p.1))

/-- The loop of `ElectronsFiller::setRefs` (lines 216-221): for each record in
the backward map, look up its stored supercluster identity in the cluster
pipeline's forward map (`scMap.at`, which throws when the key is absent) and
overwrite the record's cluster reference with the output-side reference. -/
def setRefsLoop (scMap : ℕ → Option ℕ) :
    List (ℕ × ℕ) → List OutElectron → Except String (List OutElectron)
  | [], outs => Except.ok outs
  | (pos, scId) :: rest, outs =>
    match scMap scId with
    | none => Except.error "superClusters map: key not found"
    | some r =>
      setRefsLoop scMap rest
        (outs.set pos { outs.getD pos default with superCluster := some r })

/-- `ElectronsFiller::setRefs` (lines 209-222), applied to one event's fill
result and the supercluster pipeline's forward identity map. -/
def setRefs (scMap : ℕ → Option ℕ) (res : FillResult) :
    Except String (List OutElectron) :=
  setRefsLoop scMap (bwdMap res.scEleMap) res.outElectrons

/-! ### General list lemmas -/

lemma range_map_getD {α β : Type _} (l : List α) (d : α) (f : α → β) :
    (List.range l.length).map (fun k => f (l.getD k d)) = l.map f := by
  induction l with
  | nil => rfl
  | cons x xs ih =>
    simp only [List.length_cons, List.range_succ_eq_map, List.map_cons, List.map_map,
      List.getD_cons_zero, List.map_cons]
    refine congrArg _ ?_
    calc (List.range xs.length).map ((fun k => f ((x :: xs).getD k d)) ∘ Nat.succ)
        = (List.range xs.length).map (fun k => f (xs.getD k d)) := by
          refine List.map_congr_left fun k _hk => ?_
          simp [Function.comp, List.getD_cons_succ]
      _ = xs.map f := ih

/-! ### `photonMatchLoop` and `fillOne` structure lemmas -/

lemma photonMatchLoop_shape (cfg : Config) (inp : FillInput) (scEta : ℚ) (scId : ℕ) :
    ∀ ps : List Photon, ∀ out : OutElectron, ∃ c n p,
      ps.foldl
        (fun acc photon =>
          if photon.scId = scId then
            { acc with
              chisoPh := inp.phCHIso 0 - cfg.phCHIsoEA scEta * inp.rho
              nhisoPh := inp.phNHIso 0 - cfg.phNHIsoEA scEta * inp.rho
              phisoPh := inp.phPhIso 0 - cfg.phPhIsoEA scEta * inp.rho }
          else acc)
        out =
        { out with chisoPh := c, nhisoPh := n, phisoPh := p } := by
  intro ps
  induction ps with
  | nil => intro out; exact ⟨out.chisoPh, out.nhisoPh, out.phisoPh, rfl⟩
  | cons ph ps ih =>
    intro out
    simp only [List.foldl_cons]
    by_cases hm : ph.scId = scId
    · simp only [hm, if_pos rfl]
      obtain ⟨c, n, p, hcnp⟩ :=
        ih { out with
              chisoPh := inp.phCHIso 0 - cfg.phCHIsoEA scEta * inp.rho
              nhisoPh := inp.phNHIso 0 - cfg.phNHIsoEA scEta * inp.rho
              phisoPh := inp.phPhIso 0 - cfg.phPhIsoEA scEta * inp.rho }
      exact ⟨c, n, p, hcnp⟩
    · simp only [if_neg hm]
      exact ih out

lemma photonMatchLoop_shape' (cfg : Config) (inp : FillInput) (scEta : ℚ) (scId : ℕ)
    (out : OutElectron) : ∃ c n p,
      photonMatchLoop cfg inp scEta scId out =
        { out with chisoPh := c, nhisoPh := n, phisoPh := p } :=
  photonMatchLoop_shape cfg inp scEta scId inp.photons out

lemma fillOne_ok_shape {cfg : Config} {inp : FillInput} {i : ℕ} {el : InElectron}
    {out : OutElectron} (h : fillOne cfg inp i el = Except.ok out) :
    ∃ e hIso c n p,
      caloIso cfg inp i el = Except.ok (e, hIso) ∧
      out = withGen inp (withTrigger cfg inp el
        { baseRecord cfg inp i el with
            ecaliso := e, hcaliso := hIso, chisoPh := c, nhisoPh := n, phisoPh := p }) := by
  unfold fillOne at h
  rcases hc : caloIso cfg inp i el with msg | eh
  · rw [hc] at h; exact absurd h (by simp)
  · rw [hc] at h
    obtain ⟨e, hIso⟩ := eh
    obtain ⟨c, n, p, hcnp⟩ :=
      photonMatchLoop_shape' cfg inp |el.scEta| el.scId
        { baseRecord cfg inp i el with ecaliso := e, hcaliso := hIso }
    refine ⟨e, hIso, c, n, p, rfl, ?_⟩
    have hout : out = withGen inp (withTrigger cfg inp el
        (photonMatchLoop cfg inp |el.scEta| el.scId
          { baseRecord cfg inp i el with ecaliso := e, hcaliso := hIso })) := by
      exact (Except.ok.injEq _ _).mp h.symm
    rw [hout, hcnp]

lemma fillOne_fields {cfg : Config} {inp : FillInput} {i : ℕ} {el : InElectron}
    {out : OutElectron} (h : fillOne cfg inp i el = Except.ok out) :
    out.pt = el.pt ∧
    out.veto = inp.vetoId i ∧
    out.chiso = el.pfIso.sumChargedHadronPt ∧
    out.nhiso = el.pfIso.sumNeutralHadronEt ∧
    out.phoiso = el.pfIso.sumPhotonEt ∧
    out.puiso = el.pfIso.sumPUPt ∧
    out.isoPUOffset = cfg.combIsoEA |el.scEta| * inp.rho ∧
    ∃ e hIso, caloIso cfg inp i el = Except.ok (e, hIso) ∧
      out.ecaliso = e ∧ out.hcaliso = hIso := by
  obtain ⟨e, hIso, c, n, p, hcalo, rfl⟩ := fillOne_ok_shape h
  cases hrd : inp.isRealData <;> cases htr : cfg.useTrigger <;>
    refine ⟨?_, ?_, ?_, ?_, ?_, ?_, ?_, e, hIso, hcalo, ?_, ?_⟩ <;>
    simp [withGen, withTrigger, baseRecord, hrd, htr]

lemma fillOne_matchHLT {cfg : Config} {inp : FillInput} {i : ℕ} {el : InElectron}
    {out : OutElectron} (h : fillOne cfg inp i el = Except.ok out) :
    out.matchHLT =
      if cfg.useTrigger then
        (List.range cfg.nElectronHLTObjects).map
          (fun iF => triggerScan inp el (hltObjectsFor cfg inp iF))
      else List.replicate cfg.nElectronHLTObjects false := by
  obtain ⟨e, hIso, c, n, p, _hcalo, rfl⟩ := fillOne_ok_shape h
  cases hrd : inp.isRealData <;> cases htr : cfg.useTrigger <;>
    simp [withGen, withTrigger, baseRecord, hrd, htr]

lemma triggerScan_eq_true_iff (inp : FillInput) (el : InElectron) :
    ∀ l : List TriggerObject,
      triggerScan inp el l = true ↔ ∃ obj ∈ l, inp.deltaR el obj < 3 / 10
  | [] => by simp [triggerScan]
  | obj :: rest => by
    by_cases hd : inp.deltaR el obj < 3 / 10
    · simp [triggerScan, if_pos hd, hd]
    · simp only [triggerScan, if_neg hd, triggerScan_eq_true_iff inp el rest,
        List.mem_cons]
      constructor
      · rintro ⟨o, ho, hlt⟩; exact ⟨o, Or.inr ho, hlt⟩
      · rintro ⟨o, ho | ho, hlt⟩
        · exact absurd (ho ▸ hlt) hd
        · exact ⟨o, ho, hlt⟩

/-! ### `mapExcept` lemmas -/

lemma mapExcept_ok_length {α β : Type _} {f : α → Except String β} :
    ∀ {l : List α} {ys : List β}, mapExcept f l = Except.ok ys → ys.length = l.length
  | [], ys, h => by
    rw [mapExcept] at h
    rw [← (Except.ok.injEq _ _).mp h]
    rfl
  | x :: xs, ys, h => by
    rcases hx : f x with msg | y
    · rw [mapExcept, hx] at h; exact absurd h (by simp)
    · rcases hxs : mapExcept f xs with msg | ys'
      · rw [mapExcept, hx, hxs] at h; exact absurd h (by simp)
      · rw [mapExcept, hx, hxs] at h
        rw [← (Except.ok.injEq _ _).mp h]
        simp [List.length_cons, mapExcept_ok_length hxs]

lemma mapExcept_ok_getD {α β : Type _} [Inhabited α] [Inhabited β] {f : α → Except String β} :
    ∀ {l : List α} {ys : List β}, mapExcept f l = Except.ok ys →
      ∀ k, k < l.length → f (l.getD k default) = Except.ok (ys.getD k default)
  | [], _, _, k, hk => absurd hk (by simp)
  | x :: xs, ys, h, k, hk => by
    rcases hx : f x with msg | y
    · rw [mapExcept, hx] at h; exact absurd h (by simp)
    · rcases hxs : mapExcept f xs with msg | ys'
      · rw [mapExcept, hx, hxs] at h; exact absurd h (by simp)
      · rw [mapExcept, hx, hxs] at h
        rw [← (Except.ok.injEq _ _).mp h]
        match k with
        | 0 => simpa [List.getD_cons_zero] using hx
        | k + 1 =>
          have hk' : k < xs.length := by simpa [List.length_cons] using hk
          simpa [List.getD_cons_succ] using mapExcept_ok_getD hxs k hk'

lemma mapExcept_ok_mem {α β : Type _} {f : α → Except String β} :
    ∀ {l : List α} {ys : List β}, mapExcept f l = Except.ok ys →
      ∀ x ∈ l, ∃ y, f x = Except.ok y
  | [], _, _, x, hx => absurd hx (by simp)
  | a :: xs, ys, h, x, hx => by
    rcases ha : f a with msg | y
    · rw [mapExcept, ha] at h; exact absurd h (by simp)
    · rcases hxs : mapExcept f xs with msg | ys'
      · rw [mapExcept, ha, hxs] at h; exact absurd h (by simp)
      · rcases List.mem_cons.mp hx with hx' | hx'
        · exact ⟨y, hx' ▸ ha⟩
        · exact mapExcept_ok_mem hxs x hx'

lemma mapExcept_error_of_mem {α β : Type _} {f : α → Except String β} :
    ∀ {l : List α} {x : α} {msg0 : String}, x ∈ l → f x = Except.error msg0 →
      ∃ msg, mapExcept f l = Except.error msg
  | [], x, _, hx, _ => absurd hx (by simp)
  | a :: xs, x, msg0, hx, hfx => by
    rcases ha : f a with msg | y
    · exact ⟨msg, by rw [mapExcept, ha]⟩
    · rcases List.mem_cons.mp hx with hx' | hx'
      · rw [← hx'] at ha; rw [ha] at hfx; exact absurd hfx (by simp)
      · obtain ⟨msg, hmsg⟩ := mapExcept_error_of_mem hx' hfx
        exact ⟨msg, by rw [mapExcept, ha, hmsg]⟩

/-! ### `survivors`, `fillPre` and `fill` decomposition lemmas -/

lemma mem_survivors_iff {cfg : Config} {inp : FillInput} {i : ℕ} :
    i ∈ survivors cfg inp ↔
      i < inp.electrons.length ∧
        selectedAt cfg inp i (inp.electrons.getD i default) = true := by
  simp [survivors, List.mem_filter, List.mem_range]

lemma survivors_nodup (cfg : Config) (inp : FillInput) : (survivors cfg inp).Nodup :=
  List.Nodup.filter _ (List.nodup_range _)

lemma survivors_pairwise_lt (cfg : Config) (inp : FillInput) :
    List.Pairwise (· < ·) (survivors cfg inp) :=
  List.Pairwise.filter _ (List.pairwise_lt_range _)

lemma fillPre_ok_iff {cfg : Config} {inp : FillInput} {pre : List OutElectron}
    {ptrs : List ℕ} :
    fillPre cfg inp = Except.ok (pre, ptrs) ↔
      ptrs = survivors cfg inp ∧
        mapExcept (fun i => fillOne cfg inp i (inp.electrons.getD i default))
          (survivors cfg inp) = Except.ok pre := by
  unfold fillPre
  rcases hm : mapExcept (fun i => fillOne cfg inp i (inp.electrons.getD i default))
      (survivors cfg inp) with msg | outs
  · constructor
    · intro h; exact absurd h (by simp)
    · rintro ⟨_, h⟩; exact absurd h (by simp)
  · simp only [Except.ok.injEq, Prod.mk.injEq]
    constructor
    · rintro ⟨h1, h2⟩; exact ⟨h2.symm, h1⟩
    · rintro ⟨h1, h2⟩; exact ⟨h2, h1.symm⟩

lemma fill_ok_iff {cfg : Config} {inp : FillInput} {res : FillResult} :
    fill cfg inp = Except.ok res ↔
      ∃ pre ptrs, fillPre cfg inp = Except.ok (pre, ptrs) ∧
        res =
          { outElectrons := applyPerm pre (sortPerm pre)
            originalIndices := sortPerm pre
            ptrList := ptrs
            eleEleMap := (List.range (applyPerm pre (sortPerm pre)).length).map
              (fun iP => (ptrs.getD ((sortPerm pre).getD iP 0) 0, iP))
            scEleMap := (List.range (applyPerm pre (sortPerm pre)).length).map
              (fun iP =>
                ((inp.electrons.getD (ptrs.getD ((sortPerm pre).getD iP 0) 0)
                    default).scId, iP)) } := by
  unfold fill
  rcases hp : fillPre cfg inp with msg | pp
  · constructor
    · intro h; exact absurd h (by simp)
    · rintro ⟨pre, ptrs, hpp, _⟩
      exact absurd hpp (by simp)
  · obtain ⟨pre, ptrs⟩ := pp
    constructor
    · intro h
      exact ⟨pre, ptrs, rfl, ((Except.ok.injEq _ _).mp h).symm⟩
    · rintro ⟨pre', ptrs', hpp, hres⟩
      have h2 := (Except.ok.injEq _ _).mp hpp
      injection h2 with h3 h4
      subst h3; subst h4
      rw [hres]

/-! ### Sort lemmas -/

lemma sortR_iff {pre : List OutElectron} {i j : ℕ} :
    sortR pre i j ↔
      (pre.getD j default).pt < (pre.getD i default).pt ∨
        ((pre.getD i default).pt = (pre.getD j default).pt ∧ i ≤ j) := by
  simp [sortR, sortLE]

instance sortR.isTotal (pre : List OutElectron) : IsTotal ℕ (sortR pre) := by
  constructor
  intro i j
  rcases lt_trichotomy (pre.getD i default).pt (pre.getD j default).pt with h | h | h
  · exact Or.inr (sortR_iff.mpr (Or.inl h))
  · rcases le_total i j with hij | hij
    · exact Or.inl (sortR_iff.mpr (Or.inr ⟨h, hij⟩))
    · exact Or.inr (sortR_iff.mpr (Or.inr ⟨h.symm, hij⟩))
  · exact Or.inl (sortR_iff.mpr (Or.inl h))

instance sortR.isTrans (pre : List OutElectron) : IsTrans ℕ (sortR pre) := by
  constructor
  intro a b c hab hbc
  rcases sortR_iff.mp hab with hab | ⟨hab, hab'⟩ <;>
    rcases sortR_iff.mp hbc with hbc | ⟨hbc, hbc'⟩
  · exact sortR_iff.mpr (Or.inl (hbc.trans hab))
  · exact sortR_iff.mpr (Or.inl (hbc ▸ hab))
  · exact sortR_iff.mpr (Or.inl (hab ▸ hbc))
  · exact sortR_iff.mpr (Or.inr ⟨hab.trans hbc, hab'.trans hbc'⟩)

lemma sortPerm_perm (pre : List OutElectron) :
    (sortPerm pre).Perm (List.range pre.length) :=
  List.perm_insertionSort (sortR pre) (List.range pre.length)

lemma sortPerm_sorted (pre : List OutElectron) :
    List.Pairwise (sortR pre) (sortPerm pre) :=
  List.sorted_insertionSort (sortR pre) (List.range pre.length)

lemma sortPerm_length (pre : List OutElectron) :
    (sortPerm pre).length = pre.length := by
  rw [(sortPerm_perm pre).length_eq, List.length_range]

lemma sortPerm_mem_lt {pre : List OutElectron} {i : ℕ} (h : i ∈ sortPerm pre) :
    i < pre.length :=
  List.mem_range.mp ((sortPerm_perm pre).mem_iff.mp h)

lemma sortPerm_nodup (pre : List OutElectron) : (sortPerm pre).Nodup :=
  (sortPerm_perm pre).nodup_iff.mpr (List.nodup_range _)

lemma applyPerm_length (pre : List OutElectron) (perm : List ℕ) :
    (applyPerm pre perm).length = perm.length :=
  List.length_map _ _

lemma applyPerm_getD {pre : List OutElectron} {perm : List ℕ} {iP : ℕ}
    (h : iP < perm.length) :
    (applyPerm pre perm).getD iP default = pre.getD (perm.getD iP 0) default := by
  rw [applyPerm, List.getD_eq_getElem _ _ (by simpa using h), List.getElem_map,
    List.getD_eq_getElem _ _ h]

/-! ### `setRefsLoop` lemmas -/

lemma getD_set_ne {α : Type _} {l : List α} {i j : ℕ} {a d : α} (h : i ≠ j) :
    (l.set i a).getD j d = l.getD j d := by
  rw [List.getD_eq_getElem?_getD, List.getD_eq_getElem?_getD, List.getElem?_set_ne h]

lemma getD_set_self {α : Type _} {l : List α} {i : ℕ} {a d : α} (h : i < l.length) :
    (l.set i a).getD i d = a := by
  rw [List.getD_eq_getElem _ _ (by simpa using h), List.getElem_set_self]

lemma setRefsLoop_length {scMap : ℕ → Option ℕ} :
    ∀ {links : List (ℕ × ℕ)} {outs outs' : List OutElectron},
      setRefsLoop scMap links outs = Except.ok outs' → outs'.length = outs.length
  | [], outs, outs', h => by
    rw [setRefsLoop] at h
    rw [← (Except.ok.injEq _ _).mp h]
  | (pos, scId) :: rest, outs, outs', h => by
    rw [setRefsLoop] at h
    rcases hm : scMap scId with _ | r
    · rw [hm] at h; exact absurd h (by simp)
    · rw [hm] at h
      rw [setRefsLoop_length h, List.length_set]

lemma setRefsLoop_forall_of_ok {scMap : ℕ → Option ℕ} :
    ∀ {links : List (ℕ × ℕ)} {outs outs' : List OutElectron},
      setRefsLoop scMap links outs = Except.ok outs' →
        ∀ p ∈ links, (scMap p.2).isSome
  | [], _, _, _, p, hp => absurd hp (by simp)
  | (pos, scId) :: rest, outs, outs', h, p, hp => by
    rw [setRefsLoop] at h
    rcases hm : scMap scId with _ | r
    · rw [hm] at h; exact absurd h (by simp)
    · rw [hm] at h
      rcases List.mem_cons.mp hp with hp' | hp'
      · rw [hp']; simp [hm]
      · exact setRefsLoop_forall_of_ok h p hp'

lemma setRefsLoop_ok_of_forall {scMap : ℕ → Option ℕ} :
    ∀ {links : List (ℕ × ℕ)}, (∀ p ∈ links, (scMap p.2).isSome) →
      ∀ outs : List OutElectron, ∃ outs', setRefsLoop scMap links outs = Except.ok outs'
  | [], _, outs => ⟨outs, rfl⟩
  | (pos, scId) :: rest, hall, outs => by
    rcases hm : scMap scId with _ | r
    · have := hall (pos, scId) (by simp)
      rw [hm] at this; exact absurd this (by simp)
    · obtain ⟨outs', houts'⟩ :=
        setRefsLoop_ok_of_forall (fun p hp => hall p (List.mem_cons_of_mem _ hp))
          (outs.set pos { outs.getD pos default with superCluster := some r })
      exact ⟨outs', by rw [setRefsLoop, hm]; exact houts'⟩

lemma setRefsLoop_error_of_none {scMap : ℕ → Option ℕ} {links : List (ℕ × ℕ)}
    {outs : List OutElectron} {p : ℕ × ℕ} (hp : p ∈ links) (hnone : scMap p.2 = none) :
    ∃ msg, setRefsLoop scMap links outs = Except.error msg := by
  rcases hres : setRefsLoop scMap links outs with msg | outs'
  · exact ⟨msg, rfl⟩
  · have := setRefsLoop_forall_of_ok hres p hp
    rw [hnone] at this
    exact absurd this (by simp)

lemma setRefsLoop_getD {scMap : ℕ → Option ℕ} :
    ∀ {links : List (ℕ × ℕ)} {outs outs' : List OutElectron},
      (links.map Prod.fst).Nodup →
      setRefsLoop scMap links outs = Except.ok outs' →
      (∀ p ∈ links, p.1 < outs.length →
        outs'.getD p.1 default =
          { outs.getD p.1 default with superCluster := scMap p.2 }) ∧
      (∀ pos, pos ∉ links.map Prod.fst →
        outs'.getD pos default = outs.getD pos default)
  | [], outs, outs', _, h => by
    rw [setRefsLoop] at h
    rw [← (Except.ok.injEq _ _).mp h]
    exact ⟨fun p hp _ => absurd hp (by simp), fun pos _ => rfl⟩
  | (pos0, sc0) :: rest, outs, outs', hnodup, h => by
    rw [setRefsLoop] at h
    rcases hm : scMap sc0 with _ | r
    · rw [hm] at h; exact absurd h (by simp)
    · rw [hm] at h
      have hnd := List.nodup_cons.mp (by exact hnodup)
      obtain ⟨ih1, ih2⟩ := setRefsLoop_getD hnd.2 h
      constructor
      · intro p hp hlt
        rcases List.mem_cons.mp hp with hp' | hp'
        · rw [hp']
          rw [hp'] at hlt
          have h0 := ih2 pos0 hnd.1
          rw [h0, getD_set_self hlt, hm]
        · have hne : pos0 ≠ p.1 := by
            intro hcon
            apply hnd.1
            rw [hcon]
            exact List.mem_map.mpr ⟨p, hp', rfl⟩
          have := ih1 p hp' (by rw [List.length_set]; exact hlt)
          rw [this, getD_set_ne hne]
      · intro pos hpos
        have hpos' : pos ∉ rest.map Prod.fst := fun hc => hpos (by simp [hc])
        have hne : pos0 ≠ pos := by
          intro hcon; exact hpos (by simp [hcon])
        rw [ih2 pos hpos', getD_set_ne hne]

/-! ### Record-source and identity-map helper lemmas -/

lemma fillPre_record_source {cfg : Config} {inp : FillInput} {pre : List OutElectron}
    {ptrs : List ℕ} {k : ℕ} (hpre : fillPre cfg inp = Except.ok (pre, ptrs))
    (hk : k < pre.length) :
    ptrs.getD k 0 < inp.electrons.length ∧
    selectedAt cfg inp (ptrs.getD k 0)
      (inp.electrons.getD (ptrs.getD k 0) default) = true ∧
    fillOne cfg inp (ptrs.getD k 0) (inp.electrons.getD (ptrs.getD k 0) default) =
      Except.ok (pre.getD k default) := by
  obtain ⟨hptrs, hmap⟩ := fillPre_ok_iff.mp hpre
  subst hptrs
  have hlen : pre.length = (survivors cfg inp).length := mapExcept_ok_length hmap
  have hk' : k < (survivors cfg inp).length := hlen ▸ hk
  have hmem : (survivors cfg inp).getD k 0 ∈ survivors cfg inp := by
    rw [List.getD_eq_getElem _ _ hk']
    exact List.getElem_mem hk'
  obtain ⟨hlt, hsel⟩ := mem_survivors_iff.mp hmem
  exact ⟨hlt, hsel, mapExcept_ok_getD hmap k hk'⟩

lemma fill_fields {cfg : Config} {inp : FillInput} {res : FillResult}
    (hres : fill cfg inp = Except.ok res) :
    ∃ pre, fillPre cfg inp = Except.ok (pre, res.ptrList) ∧
      res.originalIndices = sortPerm pre ∧
      res.outElectrons = applyPerm pre (sortPerm pre) ∧
      res.eleEleMap = (List.range res.outElectrons.length).map
        (fun iP => (res.ptrList.getD ((sortPerm pre).getD iP 0) 0, iP)) ∧
      res.scEleMap = (List.range res.outElectrons.length).map
        (fun iP =>
          ((inp.electrons.getD (res.ptrList.getD ((sortPerm pre).getD iP 0) 0)
              default).scId, iP)) := by
  obtain ⟨pre, ptrs, hpre, hres'⟩ := fill_ok_iff.mp hres
  subst hres'
  exact ⟨pre, hpre, rfl, rfl, rfl, rfl⟩

lemma map_snd_range {α : Type _} (n : ℕ) (f : ℕ → α) :
    ((List.range n).map (fun iP => (f iP, iP))).map Prod.snd = List.range n := by
  rw [List.map_map]
  exact List.map_id _ ▸ List.map_congr_left fun iP _ => rfl

lemma map_fst_enum_perm {α : Type _} {cfg : Config} {inp : FillInput}
    {pre : List OutElectron} {ptrs : List ℕ}
    (hpre : fillPre cfg inp = Except.ok (pre, ptrs)) (f : ℕ → α) :
    (((List.range (applyPerm pre (sortPerm pre)).length).map
        (fun iP => (f (ptrs.getD ((sortPerm pre).getD iP 0) 0), iP))).map
      Prod.fst).Perm (ptrs.map (fun i => f i)) := by
  obtain ⟨hptrs, hmap⟩ := fillPre_ok_iff.mp hpre
  have hlen : pre.length = ptrs.length := by
    rw [hptrs]; exact mapExcept_ok_length hmap
  have hn : (applyPerm pre (sortPerm pre)).length = (sortPerm pre).length := by
    rw [applyPerm_length]
  rw [List.map_map]
  have hcongr : (List.range (applyPerm pre (sortPerm pre)).length).map
      (Prod.fst ∘ fun iP => (f (ptrs.getD ((sortPerm pre).getD iP 0) 0), iP)) =
      (List.range (sortPerm pre).length).map
        (fun iP => f (ptrs.getD ((sortPerm pre).getD iP 0) 0)) := by
    rw [hn]
    exact List.map_congr_left fun iP _ => rfl
  rw [hcongr]
  have h1 : (List.range (sortPerm pre).length).map
      (fun iP => f (ptrs.getD ((sortPerm pre).getD iP 0) 0)) =
      (sortPerm pre).map (fun idx => f (ptrs.getD idx 0)) :=
    range_map_getD (sortPerm pre) 0 (fun idx => f (ptrs.getD idx 0))
  rw [h1]
  have h2 : ((sortPerm pre).map (fun idx => f (ptrs.getD idx 0))).Perm
      ((List.range ptrs.length).map (fun idx => f (ptrs.getD idx 0))) := by
    refine List.Perm.map _ ?_
    rw [← hlen]
    exact sortPerm_perm pre
  have h3 : (List.range ptrs.length).map (fun idx => f (ptrs.getD idx 0)) =
      ptrs.map (fun i => f i) :=
    range_map_getD ptrs 0 f
  rw [h3] at h2
  exact h2

lemma fill_ptrList_survivors {cfg : Config} {inp : FillInput} {res : FillResult}
    (hres : fill cfg inp = Except.ok res) : res.ptrList = survivors cfg inp := by
  obtain ⟨pre, hpre, _⟩ := fill_fields hres
  exact (fillPre_ok_iff.mp hpre).1

/-! ### `caloIso` case lemmas -/

lemma caloIso_pat {cfg : Config} {inp : FillInput} {i : ℕ} {el : InElectron}
    (h : el.isPat = true) :
    caloIso cfg inp i el = Except.ok
      (el.ecalPFClusterIso - cfg.ecalIsoEA |el.scEta| * inp.rhoCentralCalo,
       el.hcalPFClusterIso - cfg.hcalIsoEA |el.scEta| * inp.rhoCentralCalo) := by
  simp [caloIso, h]

lemma caloIso_nonpat_noEcal {cfg : Config} {inp : FillInput} {i : ℕ} {el : InElectron}
    (h : el.isPat = false) (hE : inp.ecalIso = none) :
    caloIso cfg inp i el = Except.error "ECAL PF cluster iso missing" := by
  simp [caloIso, h, hE]

lemma caloIso_nonpat_noHcal {cfg : Config} {inp : FillInput} {i : ℕ} {el : InElectron}
    {mE : ℕ → ℚ} (h : el.isPat = false) (hE : inp.ecalIso = some mE)
    (hH : inp.hcalIso = none) :
    caloIso cfg inp i el = Except.error "HCAL PF cluster iso missing" := by
  simp [caloIso, h, hE, hH]

lemma caloIso_nonpat_ok {cfg : Config} {inp : FillInput} {i : ℕ} {el : InElectron}
    {e hIso : ℚ} (h : el.isPat = false)
    (hok : caloIso cfg inp i el = Except.ok (e, hIso)) :
    ∃ mE mH, inp.ecalIso = some mE ∧ inp.hcalIso = some mH ∧
      e = mE i - cfg.ecalIsoEA |el.scEta| * inp.rhoCentralCalo ∧
      hIso = mH i - cfg.hcalIsoEA |el.scEta| * inp.rhoCentralCalo := by
  rw [caloIso, if_neg (by simp [h])] at hok
  rcases hE : inp.ecalIso with _ | mE
  · rw [hE] at hok; exact absurd hok (by simp)
  · rw [hE] at hok
    rcases hH : inp.hcalIso with _ | mH
    · rw [hH] at hok; exact absurd hok (by simp)
    · rw [hH] at hok
      have := (Except.ok.injEq _ _).mp hok
      injection this with h1 h2
      exact ⟨mE, mH, rfl, rfl, h1.symm, h2.symm⟩

lemma fillOne_error_of_caloIso {cfg : Config} {inp : FillInput} {i : ℕ}
    {el : InElectron} {msg : String} (h : caloIso cfg inp i el = Except.error msg) :
    fillOne cfg inp i el = Except.error msg := by
  rw [fillOne, h]

lemma fillPre_error_of_mapExcept {cfg : Config} {inp : FillInput} {msg : String}
    (h : mapExcept (fun i => fillOne cfg inp i (inp.electrons.getD i default))
        (survivors cfg inp) = Except.error msg) :
    fillPre cfg inp = Except.error msg := by
  rw [fillPre, h]

lemma fill_error_of_fillPre {cfg : Config} {inp : FillInput} {msg : String}
    (h : fillPre cfg inp = Except.error msg) :
    fill cfg inp = Except.error msg := by
  rw [fill, h]

/-! ### Concrete events used by witnesses and counterexamples -/

/-- A representative input electron for the concrete witness events. -/
def baseEl : InElectron :=
  { pt := 50, eta := 1, phi := 0, charge := -1
    full5x5_sigmaIetaIeta := 0, full5x5_sigmaIphiIphi := 0, hadronicOverEm := 0
    scId := 5, scEta := 1
    pfIso := { sumChargedHadronPt := 1, sumNeutralHadronEt := 2, sumPhotonEt := 3, sumPUPt := 4 }
    isPat := true, ecalPFClusterIso := 10, hcalPFClusterIso := 20 }

/-- A representative configuration for the concrete witness events (all
effective-area tables constantly 1, constructor-default cuts, trigger unused). -/
def baseCfg : Config :=
  { combIsoEA := fun _ => 1, ecalIsoEA := fun _ => 1, hcalIsoEA := fun _ => 1
    phCHIsoEA := fun _ => 1, phNHIsoEA := fun _ => 1, phPhIsoEA := fun _ => 1
    minPt := defaultMinPt, maxEta := defaultMaxEta, useTrigger := false
    hltFilters := [], nElectronHLTObjects := 2 }

/-- A representative one-electron event for the concrete witness events. -/
def baseInp : FillInput :=
  { electrons := [baseEl], photons := []
    vetoId := fun _ => true, looseId := fun _ => false
    mediumId := fun _ => true, tightId := fun _ => false
    phCHIso := fun _ => 0, phNHIso := fun _ => 0, phPhIso := fun _ => 0
    ecalIso := none, hcalIso := none
    rho := 1, rhoCentralCalo := 1
    isRealData := true, triggerObjects := [], deltaR := fun _ _ => 1 }

/-- The output record produced from `baseEl` under `baseCfg`/`baseInp`. -/
def outBase : OutElectron :=
  { pt := 50, eta := 1, phi := 0, veto := true, medium := true, q := -1
    chiso := 1, nhiso := 2, phoiso := 3, puiso := 4, isoPUOffset := 1
    ecaliso := 9, hcaliso := 19, matchHLT := [false, false] }

/-- The fill result produced from `baseCfg`/`baseInp`. -/
def resBase : FillResult :=
  { outElectrons := [outBase], originalIndices := [0], ptrList := [0]
    eleEleMap := [(0, 0)], scEleMap := [(5, 0)] }

attribute [local semireducible] Rat.sub Rat.mul Rat.add Rat.inv in
/-- C1 counterexample: under `baseCfg`/`baseInp` the stored charged-hadron
isolation equals the raw sum 1, not the area-corrected value 1 − 1·1 = 0:
the claim's equation fails on the charged channel. -/
theorem isolation_channel_claim_false :
    ∃ res, fill baseCfg baseInp = Except.ok res ∧
      (res.outElectrons.getD 0 default).chiso ≠
        (baseInp.electrons.getD 0 default).pfIso.sumChargedHadronPt -
          baseCfg.combIsoEA |(baseInp.electrons.getD 0 default).scEta| * baseInp.rho :=
  ⟨_, rfl, by decide⟩

/-- C1 (amended): for every produced record, the ECAL and HCAL cluster
channels are stored as `raw − area(|sc eta|) × rhoCentralCalo` exactly (raw
from the embedded pat-electron values or else from the side-maps), while the
charged, neutral-hadron and photon sums are stored raw, with the pileup
offset `combIsoEA(|sc eta|) × rho` stored separately in `isoPUOffset`. -/
theorem isolation_channel_storage (cfg : Config) (inp : FillInput)
    (pre : List OutElectron) (ptrs : List ℕ) (k : ℕ)
    (hpre : fillPre cfg inp = Except.ok (pre, ptrs)) (hk : k < pre.length) :
    (pre.getD k default).chiso =
      (inp.electrons.getD (ptrs.getD k 0) default).pfIso.sumChargedHadronPt ∧
    (pre.getD k default).nhiso =
      (inp.electrons.getD (ptrs.getD k 0) default).pfIso.sumNeutralHadronEt ∧
    (pre.getD k default).phoiso =
      (inp.electrons.getD (ptrs.getD k 0) default).pfIso.sumPhotonEt ∧
    (pre.getD k default).isoPUOffset =
      cfg.combIsoEA |(inp.electrons.getD (ptrs.getD k 0) default).scEta| * inp.rho ∧
    ((inp.electrons.getD (ptrs.getD k 0) default).isPat = true →
      (pre.getD k default).ecaliso =
        (inp.electrons.getD (ptrs.getD k 0) default).ecalPFClusterIso -
          cfg.ecalIsoEA |(inp.electrons.getD (ptrs.getD k 0) default).scEta| *
            inp.rhoCentralCalo ∧
      (pre.getD k default).hcaliso =
        (inp.electrons.getD (ptrs.getD k 0) default).hcalPFClusterIso -
          cfg.hcalIsoEA |(inp.electrons.getD (ptrs.getD k 0) default).scEta| *
            inp.rhoCentralCalo) ∧
    ((inp.electrons.getD (ptrs.getD k 0) default).isPat = false →
      ∃ mE mH, inp.ecalIso = some mE ∧ inp.hcalIso = some mH ∧
        (pre.getD k default).ecaliso =
          mE (ptrs.getD k 0) -
            cfg.ecalIsoEA |(inp.electrons.getD (ptrs.getD k 0) default).scEta| *
              inp.rhoCentralCalo ∧
        (pre.getD k default).hcaliso =
          mH (ptrs.getD k 0) -
            cfg.hcalIsoEA |(inp.electrons.getD (ptrs.getD k 0) default).scEta| *
              inp.rhoCentralCalo) := by
  obtain ⟨_hlt, _hsel, hone⟩ := fillPre_record_source hpre hk
  obtain ⟨_hpt, _hveto, hchiso, hnhiso, hphoiso, _hpuiso, hoffset,
    e, hIso, hcalo, he, hh⟩ := fillOne_fields hone
  refine ⟨hchiso, hnhiso, hphoiso, hoffset, ?_, ?_⟩
  · intro hpat
    rw [caloIso_pat hpat] at hcalo
    have := (Except.ok.injEq _ _).mp hcalo
    injection this with h1 h2
    exact ⟨by rw [he, ← h1], by rw [hh, ← h2]⟩
  · intro hnonpat
    obtain ⟨mE, mH, hE, hH, he', hh'⟩ := caloIso_nonpat_ok hnonpat hcalo
    exact ⟨mE, mH, hE, hH, by rw [he, he'], by rw [hh, hh']⟩

attribute [local semireducible] Rat.sub Rat.mul Rat.add Rat.inv in
/-- Witness for C1's amended theorem at the concrete base event. -/
theorem isolation_channel_storage_witness :
    fillPre baseCfg baseInp = Except.ok ([outBase], [0]) ∧ 0 < [outBase].length ∧
      ([outBase].getD 0 default).chiso =
        (baseInp.electrons.getD ([0].getD 0 0) default).pfIso.sumChargedHadronPt :=
  ⟨by rfl, by decide,
   (isolation_channel_storage baseCfg baseInp [outBase] [0] 0 (by rfl) (by decide)).1⟩

/-- C3: a candidate yields a record iff `minPt ≤ pt`, `|eta| ≤ maxEta` and its
veto flag holds; `ptrList` is exactly the ordered list of surviving input
indices, with one record per entry. -/
theorem selection_filter (cfg : Config) (inp : FillInput) (pre : List OutElectron)
    (ptrs : List ℕ) (hpre : fillPre cfg inp = Except.ok (pre, ptrs)) :
    ptrs = (List.range inp.electrons.length).filter
        (fun i => decide (cfg.minPt ≤ (inp.electrons.getD i default).pt) &&
          decide (|(inp.electrons.getD i default).eta| ≤ cfg.maxEta) &&
          inp.vetoId i) ∧
    pre.length = ptrs.length ∧
    List.Pairwise (· < ·) ptrs := by
  obtain ⟨hptrs, hmap⟩ := fillPre_ok_iff.mp hpre
  subst hptrs
  refine ⟨?_, ?_, survivors_pairwise_lt cfg inp⟩
  · unfold survivors
    refine List.filter_congr fun i _hi => ?_
    simp only [selectedAt, passPtCut, passEtaCut, Bool.and_assoc, ← decide_not, not_lt]
  · rw [mapExcept_ok_length hmap]

/-- The selection-witness configuration: `minPt` 10 and `maxEta` 2. -/
def cfgC3 : Config := { baseCfg with minPt := 10, maxEta := 2 }

/-- The selection-witness event: one passing electron, one failing the pt cut,
one failing the eta cut, one failing the veto flag. -/
def inpC3 : FillInput :=
  { baseInp with
    electrons := [baseEl, { baseEl with pt := 5 }, { baseEl with eta := 3 }, baseEl]
    vetoId := fun i => !(i = 3) }

attribute [local semireducible] Rat.sub Rat.mul Rat.add Rat.inv in
/-- Witness for C3's theorem at the concrete selection event. -/
theorem selection_filter_witness :
    fillPre cfgC3 inpC3 = Except.ok ([outBase], [0]) ∧
      ([0] = (List.range inpC3.electrons.length).filter
          (fun i => decide (cfgC3.minPt ≤ (inpC3.electrons.getD i default).pt) &&
            decide (|(inpC3.electrons.getD i default).eta| ≤ cfgC3.maxEta) &&
            inpC3.vetoId i) ∧
        ([outBase] : List OutElectron).length = [0].length ∧
        List.Pairwise (· < ·) [0]) :=
  ⟨by rfl, selection_filter cfgC3 inpC3 [outBase] [0] (by rfl)⟩

/-- C10: every produced output record has `veto = true`: the flag that gated
the selection is itself copied onto the record. -/
theorem output_veto_true (cfg : Config) (inp : FillInput) (res : FillResult)
    (hres : fill cfg inp = Except.ok res) :
    ∀ out ∈ res.outElectrons, out.veto = true := by
  intro out hout
  obtain ⟨pre, hpre, _hperm, houts, _, _⟩ := fill_fields hres
  rw [houts] at hout
  simp only [applyPerm, List.mem_map] at hout
  obtain ⟨idx, hidx, hout'⟩ := hout
  have hk : idx < pre.length := sortPerm_mem_lt hidx
  obtain ⟨-, hsel, hone⟩ := fillPre_record_source hpre hk
  obtain ⟨_hpt, hveto, -⟩ := fillOne_fields hone
  simp only [selectedAt, Bool.and_eq_true] at hsel
  rw [← hout', hveto]
  exact hsel.2

attribute [local semireducible] Rat.sub Rat.mul Rat.add Rat.inv in
/-- Witness for C10's theorem at the concrete base event. -/
theorem output_veto_true_witness :
    fill baseCfg baseInp = Except.ok resBase ∧ outBase ∈ resBase.outElectrons ∧
      outBase.veto = true :=
  ⟨by rfl, by decide,
   output_veto_true baseCfg baseInp resBase (by rfl) outBase (by decide)⟩

/-- The ranking-witness event: two electrons with pts 50 and 80. -/
def inpC4 : FillInput := { baseInp with electrons := [baseEl, { baseEl with pt := 80 }] }

/-- The record produced from the pt-80 electron of `inpC4`. -/
def outC4hi : OutElectron := { outBase with pt := 80 }

/-- The fill result produced from `baseCfg`/`inpC4`: ranked by descending pt. -/
def resC4 : FillResult :=
  { outElectrons := [outC4hi, outBase], originalIndices := [1, 0], ptrList := [0, 1]
    eleEleMap := [(1, 0), (0, 1)], scEleMap := [(5, 0), (5, 1)] }

/-- C4: the ranking is a permutation of the pre-sort positions, the ranked
records have non-increasing pt, ties keep their pre-sort relative order
(stability), and each final position holds the record from its mapped
pre-sort position. -/
theorem ranking_sorted_stable_perm (cfg : Config) (inp : FillInput)
    (res : FillResult) (pre : List OutElectron) (ptrs : List ℕ)
    (hpre : fillPre cfg inp = Except.ok (pre, ptrs))
    (hres : fill cfg inp = Except.ok res) :
    res.originalIndices.Perm (List.range pre.length) ∧
    res.outElectrons.length = pre.length ∧
    (∀ iP jP, iP < jP → jP < res.outElectrons.length →
      (res.outElectrons.getD jP default).pt ≤ (res.outElectrons.getD iP default).pt) ∧
    (∀ iP jP, iP < jP → jP < res.outElectrons.length →
      (res.outElectrons.getD iP default).pt = (res.outElectrons.getD jP default).pt →
      res.originalIndices.getD iP 0 < res.originalIndices.getD jP 0) ∧
    (∀ iP, iP < res.outElectrons.length →
      res.outElectrons.getD iP default =
        pre.getD (res.originalIndices.getD iP 0) default) := by
  obtain ⟨pre', hpre', hperm, houts, _, _⟩ := fill_fields hres
  rw [hpre] at hpre'
  have hpre'' := (Except.ok.injEq _ _).mp hpre'
  injection hpre'' with h1 _h2
  subst h1
  have hlen : res.outElectrons.length = (sortPerm pre).length := by
    rw [houts, applyPerm_length]
  have hsorted := (List.pairwise_iff_getElem).mp (sortPerm_sorted pre)
  have hgetperm : ∀ iP, iP < (sortPerm pre).length →
      res.originalIndices.getD iP 0 = (sortPerm pre).getD iP 0 := by
    intro iP hiP; rw [hperm]
  refine ⟨?_, ?_, ?_, ?_, ?_⟩
  · rw [hperm]; exact sortPerm_perm pre
  · rw [hlen, sortPerm_length]
  · intro iP jP hij hjP
    have hjP' : jP < (sortPerm pre).length := hlen ▸ hjP
    have hiP' : iP < (sortPerm pre).length := lt_trans hij hjP'
    have hr := hsorted iP jP hiP' hjP' hij
    have hgi : res.outElectrons.getD iP default =
        pre.getD ((sortPerm pre)[iP]) default := by
      rw [houts, applyPerm_getD hiP', List.getD_eq_getElem _ _ hiP']
    have hgj : res.outElectrons.getD jP default =
        pre.getD ((sortPerm pre)[jP]) default := by
      rw [houts, applyPerm_getD hjP', List.getD_eq_getElem _ _ hjP']
    rw [hgi, hgj]
    rcases sortR_iff.mp hr with hlt | ⟨heq, _⟩
    · exact le_of_lt hlt
    · exact le_of_eq heq.symm
  · intro iP jP hij hjP heqpt
    have hjP' : jP < (sortPerm pre).length := hlen ▸ hjP
    have hiP' : iP < (sortPerm pre).length := lt_trans hij hjP'
    have hr := hsorted iP jP hiP' hjP' hij
    have hgi : res.outElectrons.getD iP default =
        pre.getD ((sortPerm pre)[iP]) default := by
      rw [houts, applyPerm_getD hiP', List.getD_eq_getElem _ _ hiP']
    have hgj : res.outElectrons.getD jP default =
        pre.getD ((sortPerm pre)[jP]) default := by
      rw [houts, applyPerm_getD hjP', List.getD_eq_getElem _ _ hjP']
    rw [hgetperm iP hiP', hgetperm jP hjP', List.getD_eq_getElem _ _ hiP',
      List.getD_eq_getElem _ _ hjP']
    rw [hgi, hgj] at heqpt
    have hne : (sortPerm pre)[iP] ≠ (sortPerm pre)[jP] := by
      rw [Ne, (sortPerm_nodup pre).getElem_inj_iff]
      omega
    rcases sortR_iff.mp hr with hlt | ⟨_heq, hle⟩
    · rw [heqpt] at hlt
      exact absurd hlt (lt_irrefl _)
    · exact lt_of_le_of_ne hle hne
  · intro iP hiP
    have hiP' : iP < (sortPerm pre).length := hlen ▸ hiP
    rw [houts, hgetperm iP hiP']
    exact applyPerm_getD hiP'

attribute [local semireducible] Rat.sub Rat.mul Rat.add Rat.inv in
/-- Witness for C4's theorem at the concrete two-electron event. -/
theorem ranking_sorted_stable_perm_witness :
    fillPre baseCfg inpC4 = Except.ok ([outBase, outC4hi], [0, 1]) ∧
    fill baseCfg inpC4 = Except.ok resC4 ∧
    (resC4.outElectrons.getD 1 default).pt ≤ (resC4.outElectrons.getD 0 default).pt :=
  ⟨by rfl, by rfl,
   (ranking_sorted_stable_perm baseCfg inpC4 resC4 [outBase, outC4hi] [0, 1]
     (by rfl) (by rfl)).2.2.1 0 1 (by decide) (by decide)⟩

/-- The duplicate-cluster event: two selected electrons sharing cluster id 5. -/
def inpC5 : FillInput := { baseInp with electrons := [baseEl, baseEl] }

attribute [local semireducible] Rat.sub Rat.mul Rat.add Rat.inv in
/-- C5 counterexample: with two selected candidates sharing one cluster
identity, the cluster-to-record map receives two entries with the same key,
so the claimed "each input identity maps to at most one OutputRecord"
bijection fails. -/
theorem cluster_map_not_injective :
    ∃ res, fill baseCfg inpC5 = Except.ok res ∧
      ¬ (res.scEleMap.map Prod.fst).Nodup :=
  ⟨_, rfl, by decide⟩

/-- C5 (amended): both identity maps carry exactly one entry per produced
record (their record sides enumerate the final positions); the
candidate-to-record map always has pairwise-distinct input keys, and the
cluster-to-record map has pairwise-distinct keys provided the selected
candidates' cluster identities are pairwise distinct. -/
theorem identity_maps_structure (cfg : Config) (inp : FillInput) (res : FillResult)
    (hres : fill cfg inp = Except.ok res) :
    res.eleEleMap.map Prod.snd = List.range res.outElectrons.length ∧
    res.scEleMap.map Prod.snd = List.range res.outElectrons.length ∧
    (res.eleEleMap.map Prod.fst).Nodup ∧
    ((res.ptrList.map (fun i => (inp.electrons.getD i default).scId)).Nodup →
      (res.scEleMap.map Prod.fst).Nodup) := by
  obtain ⟨pre, hpre, _hperm, houts, hele, hsc⟩ := fill_fields hres
  have hptrs : res.ptrList = survivors cfg inp := (fillPre_ok_iff.mp hpre).1
  refine ⟨?_, ?_, ?_, ?_⟩
  · rw [hele, map_snd_range]
  · rw [hsc, map_snd_range]
  · have hperm1 := map_fst_enum_perm hpre (fun i => i)
    rw [houts] at hele
    rw [hele]
    refine (map_fst_enum_perm hpre (fun i => i)).nodup_iff.mpr ?_
    have : res.ptrList.map (fun i => i) = res.ptrList := List.map_id' res.ptrList
    rw [this, hptrs]
    exact survivors_nodup cfg inp
  · intro hnd
    rw [houts] at hsc
    rw [hsc]
    exact (map_fst_enum_perm hpre
      (fun i => (inp.electrons.getD i default).scId)).nodup_iff.mpr hnd

attribute [local semireducible] Rat.sub Rat.mul Rat.add Rat.inv in
/-- Witness for C5's amended theorem at the concrete base event. -/
theorem identity_maps_structure_witness :
    fill baseCfg baseInp = Except.ok resBase ∧
    (resBase.ptrList.map (fun i => (baseInp.electrons.getD i default).scId)).Nodup ∧
    (resBase.scEleMap.map Prod.fst).Nodup ∧
    resBase.eleEleMap.map Prod.snd = List.range resBase.outElectrons.length :=
  ⟨by rfl, by decide,
   (identity_maps_structure baseCfg baseInp resBase (by rfl)).2.2.2 (by decide),
   (identity_maps_structure baseCfg baseInp resBase (by rfl)).1⟩

/-- C6: reference resolution over a fill result: it fails (with an error, as
`scMap.at` throws) whenever some stored cluster identity has no entry in the
cluster pipeline's map, succeeds when all entries are present, and on success
rewrites every record's cluster reference to the cluster pipeline's
output-side record for that record's stored cluster identity. -/
theorem setRefs_resolves_or_fails (cfg : Config) (inp : FillInput)
    (res : FillResult) (scMap : ℕ → Option ℕ)
    (hres : fill cfg inp = Except.ok res) :
    ((∃ p ∈ res.scEleMap, scMap p.1 = none) →
      ∃ msg, setRefs scMap res = Except.error msg) ∧
    ((∀ p ∈ res.scEleMap, (scMap p.1).isSome) →
      ∃ outs', setRefs scMap res = Except.ok outs') ∧
    (∀ outs', setRefs scMap res = Except.ok outs' →
      outs'.length = res.outElectrons.length ∧
      ∀ iP, iP < res.outElectrons.length →
        ∃ scId, (scId, iP) ∈ res.scEleMap ∧
          outs'.getD iP default =
            { res.outElectrons.getD iP default with superCluster := scMap scId }) := by
  obtain ⟨pre, hpre, _hperm, houts, _hele, hsc⟩ := fill_fields hres
  have hbwd_fst : (bwdMap res.scEleMap).map Prod.fst = res.scEleMap.map Prod.snd := by
    simp [bwdMap, List.map_map]
  have hsnd : res.scEleMap.map Prod.snd = List.range res.outElectrons.length := by
    rw [hsc, map_snd_range]
  refine ⟨?_, ?_, ?_⟩
  · rintro ⟨p, hp, hnone⟩
    have hp' : (p.2, p.1) ∈ bwdMap res.scEleMap :=
      List.mem_map.mpr ⟨p, hp, rfl⟩
    exact setRefsLoop_error_of_none hp' hnone
  · intro hall
    refine setRefsLoop_ok_of_forall ?_ res.outElectrons
    intro q hq
    obtain ⟨p, hp, hq'⟩ := List.mem_map.mp hq
    have : q.2 = p.1 := by rw [← hq']
    rw [this]
    exact hall p hp
  · intro outs' houts'
    have hnodup : ((bwdMap res.scEleMap).map Prod.fst).Nodup := by
      rw [hbwd_fst, hsnd]; exact List.nodup_range _
    obtain ⟨hset, _huntouched⟩ := setRefsLoop_getD hnodup houts'
    constructor
    · exact setRefsLoop_length houts'
    · intro iP hiP
      have hkey : ((inp.electrons.getD
          (res.ptrList.getD ((sortPerm pre).getD iP 0) 0) default).scId, iP) ∈
          res.scEleMap := by
        rw [hsc]
        exact List.mem_map.mpr ⟨iP, List.mem_range.mpr hiP, rfl⟩
      refine ⟨_, hkey, ?_⟩
      have hbwdmem : (iP, (inp.electrons.getD
          (res.ptrList.getD ((sortPerm pre).getD iP 0) 0) default).scId) ∈
          bwdMap res.scEleMap :=
        List.mem_map.mpr ⟨_, hkey, rfl⟩
      exact hset _ hbwdmem hiP

/-- The cluster pipeline's forward map used by the resolution witness. -/
def scMapW : ℕ → Option ℕ := fun scId => if scId = 5 then some 3 else none

attribute [local semireducible] Rat.sub Rat.mul Rat.add Rat.inv in
/-- Witness for C6's theorem at the concrete base event. -/
theorem setRefs_resolves_or_fails_witness :
    fill baseCfg baseInp = Except.ok resBase ∧
    (∀ p ∈ resBase.scEleMap, (scMapW p.1).isSome) ∧
    (∃ outs', setRefs scMapW resBase = Except.ok outs') :=
  ⟨by rfl, by decide,
   (setRefs_resolves_or_fails baseCfg baseInp resBase scMapW (by rfl)).2.1
     (by decide)⟩

/-- The cross-collection event for C2: the photon at index 1 shares the
electron's cluster (id 5); the photon at index 0 does not, and the two
photons' charged-isolation side-map values differ (100 at index 0, 7 at 1). -/
def inpC2 : FillInput :=
  { baseInp with
    photons := [{ scId := 4 }, { scId := 5 }]
    phCHIso := fun i => if i = 0 then 100 else 7 }

attribute [local semireducible] Rat.sub Rat.mul Rat.add Rat.inv in
/-- C2 (code bug): the photon-match loop of lines 165-173 declares `iPh(0)`
but never increments it, so `photons.refAt(iPh)` always reads the isolation
side-maps at photon index 0.  Here the photon at index 1 is the (only)
cluster match, yet the stored `chisoPh` is computed from the side-map value
of photon index 0, not from the matching photon's value. -/
theorem photon_match_reads_index_zero :
    ∃ res, fill baseCfg inpC2 = Except.ok res ∧
      (inpC2.photons.getD 1 default).scId = (inpC2.electrons.getD 0 default).scId ∧
      (inpC2.photons.getD 0 default).scId ≠ (inpC2.electrons.getD 0 default).scId ∧
      (res.outElectrons.getD 0 default).chisoPh =
        inpC2.phCHIso 0 -
          baseCfg.phCHIsoEA |(inpC2.electrons.getD 0 default).scEta| * inpC2.rho ∧
      (res.outElectrons.getD 0 default).chisoPh ≠
        inpC2.phCHIso 1 -
          baseCfg.phCHIsoEA |(inpC2.electrons.getD 0 default).scEta| * inpC2.rho :=
  ⟨_, rfl, by decide, by decide, by decide, by decide⟩

/-- C7: with trigger usage enabled, each category flag is true iff some
pre-filtered trigger object carrying that category's label lies within
angular separation < 0.3 of the candidate (the scan's early exit changes no
observable flag value); with trigger usage disabled the flags all stay false. -/
theorem trigger_match_flags (cfg : Config) (inp : FillInput)
    (pre : List OutElectron) (ptrs : List ℕ) (k : ℕ)
    (hpre : fillPre cfg inp = Except.ok (pre, ptrs)) (hk : k < pre.length) :
    (cfg.useTrigger = true →
      (pre.getD k default).matchHLT.length = cfg.nElectronHLTObjects ∧
      ∀ iF, iF < cfg.nElectronHLTObjects →
        ((pre.getD k default).matchHLT.getD iF false = true ↔
          ∃ obj ∈ inp.triggerObjects,
            obj.filterLabels.contains (cfg.hltFilters.getD iF "") = true ∧
            inp.deltaR (inp.electrons.getD (ptrs.getD k 0) default) obj < 3 / 10)) ∧
    (cfg.useTrigger = false →
      (pre.getD k default).matchHLT = List.replicate cfg.nElectronHLTObjects false) := by
  obtain ⟨_hlt, _hsel, hone⟩ := fillPre_record_source hpre hk
  have hm := fillOne_matchHLT hone
  constructor
  · intro htr
    rw [htr, if_pos rfl] at hm
    constructor
    · rw [hm, List.length_map, List.length_range]
    · intro iF hiF
      have hlen : iF < ((List.range cfg.nElectronHLTObjects).map
          (fun iF => triggerScan inp (inp.electrons.getD (ptrs.getD k 0) default)
            (hltObjectsFor cfg inp iF))).length := by
        rw [List.length_map, List.length_range]; exact hiF
      rw [hm, List.getD_eq_getElem _ _ hlen, List.getElem_map, List.getElem_range,
        triggerScan_eq_true_iff]
      constructor
      · rintro ⟨obj, hobj, hdr⟩
        obtain ⟨hmem, hcont⟩ := List.mem_filter.mp hobj
        exact ⟨obj, hmem, hcont, hdr⟩
      · rintro ⟨obj, hmem, hcont, hdr⟩
        exact ⟨obj, List.mem_filter.mpr ⟨hmem, hcont⟩, hdr⟩
  · intro htr
    rw [htr] at hm
    simpa using hm

/-- The trigger-witness configuration: two categories labelled F0 and F1. -/
def cfgC7 : Config := { baseCfg with useTrigger := true, hltFilters := ["F0", "F1"] }

/-- The trigger-witness event: one trigger object carrying only F1, within
angular separation 1/5 of everything. -/
def inpC7 : FillInput :=
  { baseInp with
    triggerObjects := [{ filterLabels := ["F1"] }]
    deltaR := fun _ _ => 1 / 5 }

/-- The record produced from `cfgC7`/`inpC7`: only the F1 flag is set. -/
def outC7 : OutElectron := { outBase with matchHLT := [false, true] }

attribute [local semireducible] Rat.sub Rat.mul Rat.add Rat.inv in
/-- Witness for C7's theorem at the concrete trigger event. -/
theorem trigger_match_flags_witness :
    fillPre cfgC7 inpC7 = Except.ok ([outC7], [0]) ∧
    0 < ([outC7] : List OutElectron).length ∧
    cfgC7.useTrigger = true ∧ 1 < cfgC7.nElectronHLTObjects ∧
    ((([outC7] : List OutElectron).getD 0 default).matchHLT.getD 1 false = true ↔
      ∃ obj ∈ inpC7.triggerObjects,
        obj.filterLabels.contains (cfgC7.hltFilters.getD 1 "") = true ∧
        inpC7.deltaR (inpC7.electrons.getD (([0] : List ℕ).getD 0 0) default) obj
          < 3 / 10) :=
  ⟨by rfl, by decide, rfl, by decide,
   ((trigger_match_flags cfgC7 inpC7 [outC7] [0] 0 (by rfl) (by decide)).1 rfl).2
     1 (by decide)⟩

/-- C8: for a selected candidate whose record is not a `pat::Electron`, the
fill consults the ECAL/HCAL side-maps: a missing map raises the corresponding
configuration error (and the whole event's fill fails), and with both maps
present the corrected values are computed from them with the
central-calorimeter density. -/
theorem calo_sidemap_required (cfg : Config) (inp : FillInput) :
    (∀ i el, el.isPat = false →
      (inp.ecalIso = none →
        fillOne cfg inp i el = Except.error "ECAL PF cluster iso missing") ∧
      (∀ mE, inp.ecalIso = some mE → inp.hcalIso = none →
        fillOne cfg inp i el = Except.error "HCAL PF cluster iso missing") ∧
      (∀ out, fillOne cfg inp i el = Except.ok out →
        ∃ mE mH, inp.ecalIso = some mE ∧ inp.hcalIso = some mH ∧
          out.ecaliso = mE i - cfg.ecalIsoEA |el.scEta| * inp.rhoCentralCalo ∧
          out.hcaliso = mH i - cfg.hcalIsoEA |el.scEta| * inp.rhoCentralCalo)) ∧
    (inp.ecalIso = none →
      (∃ i, i < inp.electrons.length ∧
        selectedAt cfg inp i (inp.electrons.getD i default) = true ∧
        (inp.electrons.getD i default).isPat = false) →
      ∃ msg, fill cfg inp = Except.error msg) := by
  constructor
  · intro i el hnp
    refine ⟨?_, ?_, ?_⟩
    · intro hE
      exact fillOne_error_of_caloIso (caloIso_nonpat_noEcal hnp hE)
    · intro mE hE hH
      exact fillOne_error_of_caloIso (caloIso_nonpat_noHcal hnp hE hH)
    · intro out hout
      obtain ⟨_, _, _, _, _, _, _, e, hIso, hcalo, he, hh⟩ := fillOne_fields hout
      obtain ⟨mE, mH, hE, hH, he', hh'⟩ := caloIso_nonpat_ok hnp hcalo
      exact ⟨mE, mH, hE, hH, by rw [he, he'], by rw [hh, hh']⟩
  · rintro hE ⟨i, hlt, hsel, hnp⟩
    have hmem : i ∈ survivors cfg inp := mem_survivors_iff.mpr ⟨hlt, hsel⟩
    have herr : fillOne cfg inp i (inp.electrons.getD i default) =
        Except.error "ECAL PF cluster iso missing" :=
      fillOne_error_of_caloIso (caloIso_nonpat_noEcal hnp hE)
    obtain ⟨msg, hmsg⟩ :=
      @mapExcept_error_of_mem ℕ OutElectron
        (fun j => fillOne cfg inp j (inp.electrons.getD j default))
        (survivors cfg inp) i "ECAL PF cluster iso missing" hmem herr
    exact ⟨msg, fill_error_of_fillPre (fillPre_error_of_mapExcept hmsg)⟩

/-- A selected electron whose record is not a `pat::Electron`. -/
def elC8 : InElectron := { baseEl with isPat := false }

/-- The C8 witness event: one non-pat electron, no calorimeter side-maps. -/
def inpC8 : FillInput := { baseInp with electrons := [elC8] }

attribute [local semireducible] Rat.sub Rat.mul Rat.add Rat.inv in
/-- Witness for C8's theorem at the concrete no-side-map event. -/
theorem calo_sidemap_required_witness :
    elC8.isPat = false ∧ inpC8.ecalIso = none ∧
    fillOne baseCfg inpC8 0 elC8 = Except.error "ECAL PF cluster iso missing" ∧
    (∃ msg, fill baseCfg inpC8 = Except.error msg) :=
  ⟨rfl, rfl,
   ((calo_sidemap_required baseCfg inpC8).1 0 elC8 rfl).1 rfl,
   (calo_sidemap_required baseCfg inpC8).2 rfl ⟨0, by decide, by decide, rfl⟩⟩

/-- The C9 event: a candidate with pseudorapidity 11 (and passing pt and
veto), under the constructor-default cuts. -/
def inpC9 : FillInput := { baseInp with electrons := [{ baseEl with eta := 11 }] }

attribute [local semireducible] Rat.sub Rat.mul Rat.add Rat.inv in
/-- C9 counterexample: the constructor default for `maxEta` is the finite
value 10, so a candidate with `|eta| = 11` is rejected by the eta cut even
though it passes the pt cut and the veto: the default does impose a maximum. -/
theorem default_maxEta_rejects :
    baseCfg.minPt = defaultMinPt ∧ baseCfg.maxEta = defaultMaxEta ∧
    inpC9.vetoId 0 = true ∧
    passPtCut baseCfg (inpC9.electrons.getD 0 default) = true ∧
    passEtaCut baseCfg (inpC9.electrons.getD 0 default) = false ∧
    ∃ res, fill baseCfg inpC9 = Except.ok res ∧ res.outElectrons = [] :=
  ⟨rfl, rfl, rfl, by decide, by decide, ⟨_, rfl, rfl⟩⟩

/-- C9 (amended): with the constructor defaults (`minPt = −1`, `maxEta = 10`),
no candidate with non-negative transverse momentum is rejected by the pt cut,
and no candidate with `|eta| ≤ 10` is rejected by the eta cut. -/
theorem default_cuts_within_detector (cfg : Config) (el : InElectron) :
    (cfg.minPt = defaultMinPt → 0 ≤ el.pt → passPtCut cfg el = true) ∧
    (cfg.maxEta = defaultMaxEta → |el.eta| ≤ 10 → passEtaCut cfg el = true) := by
  constructor
  · intro hmin hpt
    rw [passPtCut, hmin, defaultMinPt]
    simp only [Bool.not_eq_true', decide_eq_false_iff_not, not_lt]
    linarith
  · intro hmax heta
    rw [passEtaCut, hmax, defaultMaxEta]
    simp only [Bool.not_eq_true', decide_eq_false_iff_not, not_lt]
    exact heta

attribute [local semireducible] Rat.sub Rat.mul Rat.add Rat.inv in
/-- Witness for C9's amended theorem at the concrete base electron. -/
theorem default_cuts_within_detector_witness :
    baseCfg.minPt = defaultMinPt ∧ (0 : ℚ) ≤ baseEl.pt ∧
    passPtCut baseCfg baseEl = true ∧
    baseCfg.maxEta = defaultMaxEta ∧ |baseEl.eta| ≤ 10 ∧
    passEtaCut baseCfg baseEl = true :=
  ⟨rfl, by decide,
   (default_cuts_within_detector baseCfg baseEl).1 rfl (by decide),
   rfl, by decide,
   (default_cuts_within_detector baseCfg baseEl).2 rfl (by decide)⟩

end PandaProd
